import Mathlib

/-!
# Verification of the forge reactive core and reconciler

Shallow embedding of the reactive primitives
(`packages/primitives/src/reactivity/`: `signal.ts`, `batch-queue.ts`,
`reactive-node.ts`, `computed.ts`, `effect.ts`,
`packages/strategies/src/signal-reactive/index.ts`) and of the keyed
reconciliation algorithms (`diff.ts` / `patch.ts`).

JavaScript numbers that the code manipulates as integers are modelled as
`Int`; `| 0` truncation is modelled by explicit wrapping at 2^32 into the
signed 32-bit range.  Exceptions are modelled with explicit error channels.
All definitions are executable.
-/

set_option maxRecDepth 10000

namespace Forge

/-! ## Part I: definitions -/

/-! ### BatchQueue (`batch-queue.ts`)

`BatchQueue` keeps a nesting `depth` and a `pending` JS `Set` of callbacks.
Callbacks are modelled by identifiers (`CbId`); the `Set` is modelled as an
insertion-ordered duplicate-free list, which is exactly the iteration
contract of a JS `Set`. -/

abbrev CbId := Nat

/-- `pending.add(fn)`: a JS `Set` keeps the first insertion position. -/
def pendingAdd (p : List CbId) (c : CbId) : List CbId :=
  if c ∈ p then p else p ++ [c]

/-- A program run against a `BatchQueue`: a sequence of `enqueue` calls and
(nested) `batch` calls, as performed by client code inside a `batch` body. -/
inductive BAct where
  | enq : CbId → BAct
  | batchA : List BAct → BAct
  deriving Repr

/-- State of a `BatchQueue` together with the trace of executed callbacks. -/
structure BQRun where
  depth : Nat
  pending : List CbId
  execLog : List CbId
  deriving Repr, DecidableEq

def BQRun.init : BQRun := ⟨0, [], []⟩

/-- The `finally` clause of `batch()`: `depth--`, and when depth returns
to `0` drain a snapshot of `pending` (executed callbacks here are inert
identifiers, appended to the execution log in pending order). -/
def exitBatch (r2 : BQRun) : BQRun :=
  if r2.depth - 1 = 0 then
    { depth := 0, pending := [], execLog := r2.execLog ++ r2.pending }
  else { r2 with depth := r2.depth - 1 }

mutual
/-- One client action against the queue.  `enq c` is `enqueue(fn_c)`:
deferred into `pending` while `depth > 0`, run immediately otherwise.
`batchA acts` is `batch(fn)` where `fn` performs `acts`: `depth++`, run the
body, then the `finally` clause `exitBatch`. -/
def runAct : BAct → BQRun → BQRun
  | .enq c, r =>
      if r.depth > 0 then { r with pending := pendingAdd r.pending c }
      else { r with execLog := r.execLog ++ [c] }
  | .batchA acts, r =>
      exitBatch (runActs acts { r with depth := r.depth + 1 })

def runActs : List BAct → BQRun → BQRun
  | [], r => r
  | a :: rest, r => runActs rest (runAct a r)
end

mutual
/-- The callback ids enqueued by an action, in program order. -/
def enqIds : BAct → List CbId
  | .enq c => [c]
  | .batchA acts => enqIdsL acts

def enqIdsL : List BAct → List CbId
  | [] => []
  | a :: rest => enqIds a ++ enqIdsL rest
end

/-! ### Batch flush error policy (`batch-queue.ts` vs the `firstError`
variant of `BatchQueue` appended in `signal.ts`)

The drain loop at the end of `batch()` runs each pending callback under
`try/catch`.  Callbacks are given a behaviour `beh : CbId → Option ErrId`
(`some e` = the callback throws `e`).  The exported `BatchQueue`
(`batch-queue.ts` lines 5-19) logs every error via `console.error` and
never re-throws; the variant (`signal.ts` lines 95-119) remembers the
first error, logs subsequent ones, and re-throws the first after the full
drain. -/

abbrev ErrId := Nat

/-- Result of draining the pending snapshot. `executed` lists every callback
that was invoked, `logged` the errors reported via `console.error`,
`thrown` the error propagated to the caller of `batch()` (if any). -/
structure FlushResult where
  executed : List CbId
  logged : List ErrId
  thrown : Option ErrId
  deriving Repr, DecidableEq

/-- Drain loop of `batch-queue.ts`:
`for (const f of fns) { try { f(); } catch (e) { console.error(...); } }` -/
def flushPrimary (beh : CbId → Option ErrId) : List CbId → FlushResult
  | [] => ⟨[], [], none⟩
  | f :: rest =>
      let r := flushPrimary beh rest
      match beh f with
      | none => ⟨f :: r.executed, r.logged, none⟩
      | some e => ⟨f :: r.executed, e :: r.logged, none⟩

/-- Drain loop of the variant `BatchQueue` in `signal.ts`: the first error
is remembered, later ones are logged, and after the loop the first error
is re-thrown. `acc` is the `firstError` local. -/
def flushVariantGo (beh : CbId → Option ErrId) (acc : Option ErrId) :
    List CbId → FlushResult
  | [] => ⟨[], [], acc⟩
  | f :: rest =>
      match beh f with
      | none =>
          let r := flushVariantGo beh acc rest
          ⟨f :: r.executed, r.logged, r.thrown⟩
      | some e =>
          match acc with
          | none =>
              let r := flushVariantGo beh (some e) rest
              ⟨f :: r.executed, r.logged, r.thrown⟩
          | some a =>
              let r := flushVariantGo beh (some a) rest
              ⟨f :: r.executed, e :: r.logged, r.thrown⟩

def flushVariant (beh : CbId → Option ErrId) (fns : List CbId) : FlushResult :=
  flushVariantGo beh none fns

/-- A top-level `batch(fn)` call on the exported `BatchQueue`
(`batch-queue.ts`): depth goes `0 → 1`, the body runs (all its enqueues
defer), and on exit the pending snapshot is drained by the
log-all-errors loop. -/
def batchPrimary (beh : CbId → Option ErrId) (acts : List BAct) : FlushResult :=
  flushPrimary beh (runActs acts ⟨1, [], []⟩).pending

/-- A top-level `batch(fn)` call on the `firstError` variant `BatchQueue`
(`signal.ts` lines 95-119): same shape, but the drain re-throws the first
error after the loop. -/
def batchVariant (beh : CbId → Option ErrId) (acts : List BAct) : FlushResult :=
  flushVariant beh (runActs acts ⟨1, [], []⟩).pending

/-! ### Observable Value (`signal.ts` `createSignal`)

Values are JS values that may be functions (`JVal.func i` refers to entry
`i` of a function table, since JS closures are opaque).  The default
equality `Object.is` restricted to the modelled values coincides with
decidable equality. Subscribers are identified by index; their behaviour
is a function from the observed value to an effect: return normally,
throw, or write back to the same signal via `set`. -/

inductive JVal where
  | num : Int → JVal
  | func : Nat → JVal
  deriving Repr, DecidableEq

/-- Function table interpreting `JVal.func` ids as JS functions. -/
abbrev FTab := Nat → JVal → JVal

/-- What a subscriber does when invoked with the current value. -/
inductive SubEff where
  | ret : SubEff
  | throwE : ErrId → SubEff
  | setV : JVal → SubEff
  deriving Repr, DecidableEq

abbrev SubBeh := Nat → JVal → SubEff

/-- Signal closure state: the mutable `value`, the `notifying` and `dirty`
flags, plus observation logs: `errLog` for `console.error`d subscriber
errors, `callLog` for subscriber invocations `(index, value passed)`,
`diag = true` once the iteration-ceiling diagnostic has been printed. -/
structure SigState where
  value : JVal
  notifying : Bool
  dirty : Bool
  errLog : List ErrId
  callLog : List (Nat × JVal)
  diag : Bool
  deriving Repr, DecidableEq

def SigState.start (v : JVal) : SigState :=
  ⟨v, false, false, [], [], false⟩

/-- `set(next)` candidate value: a function argument is always applied to
the previous value (the updater interpretation, BUG-13 note in
`signal.ts`), anything else is stored as-is. -/
def setCandidate (ftab : FTab) (next : JVal) (prev : JVal) : JVal :=
  match next with
  | .func f => ftab f prev
  | x => x

/-- `set` called while a notification pass is running (`notifying = true`):
computes the candidate, short-circuits on equality, otherwise commits the
value and records the dirty flag instead of recursing into `notify`. -/
def innerSet (ftab : FTab) (s : SigState) (next : JVal) : SigState :=
  let newValue := setCandidate ftab next s.value
  if s.value = newValue then s
  else { s with value := newValue, dirty := true }

/-- One invocation step for subscriber `i`: the call is recorded, then the
behaviour runs; a thrown error is caught and logged (`try/catch` around
`fn(value)`), a write-back goes through the reentrant `set` path. -/
def runSub (ftab : FTab) (beh : SubBeh) (i : Nat) (s : SigState) : SigState :=
  let v := s.value
  let s1 := { s with callLog := s.callLog ++ [(i, v)] }
  match beh i v with
  | .ret => s1
  | .throwE e => { s1 with errLog := s1.errLog ++ [e] }
  | .setV x => innerSet ftab s1 x

/-- The inner `for (const fn of [...subscribers])` loop of one pass.  No
subscriber is ever removed in the modelled behaviours, so the liveness
check `subscribers.has(fn)` is always true. -/
def runSubs (ftab : FTab) (beh : SubBeh) (subs : List Nat) (s : SigState) :
    SigState :=
  match subs with
  | [] => s
  | i :: rest => runSubs ftab beh rest (runSub ftab beh i s)

/-- `MAX_ITERATIONS` in `notify`. -/
def MAX_ITERATIONS : Nat := 100

/-- The `do { ... } while (dirty)` loop of `notify`, with `fuel` = number of
passes still allowed by the iteration counter.  When the counter would
exceed `MAX_ITERATIONS` the loop prints a diagnostic and breaks before
running any subscriber. -/
def notifyLoop (ftab : FTab) (beh : SubBeh) (subs : List Nat) :
    Nat → SigState → SigState
  | 0, s => { s with diag := true }
  | fuel + 1, s =>
      let s1 := runSubs ftab beh subs { s with dirty := false }
      if s1.dirty then notifyLoop ftab beh subs fuel s1 else s1

/-- `notify()`: sets `notifying`, runs up to `MAX_ITERATIONS` passes, and in
the `finally` clause clears `notifying` and `dirty`. -/
def notify (ftab : FTab) (beh : SubBeh) (subs : List Nat) (s : SigState) :
    SigState :=
  let r := notifyLoop ftab beh subs MAX_ITERATIONS { s with notifying := true }
  { r with notifying := false, dirty := false }

/-- Top-level `set(next)`.  The second component is the exception
propagated to the caller: every subscriber error is caught inside
`notify`, so the translation of the source can only ever return `none`
there. -/
def setS (ftab : FTab) (beh : SubBeh) (subs : List Nat) (s : SigState)
    (next : JVal) : SigState × Option ErrId :=
  let newValue := setCandidate ftab next s.value
  if s.value = newValue then (s, none)
  else
    let s1 := { s with value := newValue }
    if s1.notifying then ({ s1 with dirty := true }, none)
    else (notify ftab beh subs s1, none)

/-- The error a subscriber effect throws, if any. -/
def errOf : SubEff → Option ErrId
  | .throwE e => some e
  | _ => none

/-- Whether a subscriber effect writes back to the signal. -/
def isWriteEff : SubEff → Bool
  | .setV _ => true
  | _ => false

/-- JS `v + 1` on the modelled values (used by the feedback subscriber of
the bounded-reentrancy scenario). -/
def jadd1 : JVal → JVal
  | .num n => .num (n + 1)
  | .func f => .func f

/-- A subscriber behaviour where every subscriber writes `value + 1` back
to the signal it observes. -/
def incBeh : SubBeh := fun _ v => .setV (jadd1 v)

/-- Identity function table (no `JVal.func` values are exercised). -/
def ftab0 : FTab := fun _ v => v

/-- Example behaviour: subscriber 1 throws error 5, the others return. -/
def behThrow1 : SubBeh := fun i _ => if i = 1 then .throwE 5 else .ret

/-- Example batch-callback behaviour: callback 0 throws 7, callback 1
throws 9, all others return normally. -/
def behTwoErr : CbId → Option ErrId :=
  fun c => if c = 0 then some 7 else if c = 1 then some 9 else none

/-- Example function table: entry 0 is the updater `prev => prev + 1`,
every other entry is the constant updater `() => (function 7)` used to
store a function value by wrapping it. -/
def ftabW : FTab := fun i v => if i = 0 then jadd1 v else .func 7

/-! ### Version counters (`reactive-node.ts` `incrementVersion`)

`node.version = (node.version + 1) | 0` — the `| 0` coerces to a signed
32-bit integer, so the counter wraps at `2^31 - 1`. -/

/-- Signed 32-bit truncation (`| 0`). -/
def wrap32 (n : Int) : Int := (n + 2 ^ 31) % 2 ^ 32 - 2 ^ 31

/-- `incrementVersion`: increment with overflow protection. -/
def incrementVersion (v : Int) : Int := wrap32 (v + 1)

/-! ### Push-pull reactive graph
(`reactive-node.ts`, `computed.ts`, `effect.ts`, `graph-signal.ts`,
wired together by `signal-reactive/index.ts`)

Nodes live in a heap (`Sys.nodes`) indexed by node id.  The opaque JS
closures are modelled statically: a COMPUTED/EFFECT node carries `deps`
(the node ids its function reads via `.get()`, in order) and `fnId`, an
index into a pure combine table `CFTab` mapping the read values to the
function result.  An EFFECT body reads its deps and appends the combined
value to the observation log `obsLog` (this is "the observer sees a
notification with that value").  `runLog` records every node whose user
function actually executed.

The scheduler is the `signal-reactive` integration: an effect's `notify`
hook is `scheduleEffect` (add the effect's `execute` to the
`pendingEffects` set, then `batchQueue.enqueue(flush)`), and a signal
`set` always runs inside `batchQueue.batch`.  Since only the single
`flush` closure is ever enqueued on the `BatchQueue`, its pending set is
the boolean `flushQueued`.

All recursion is fuel-indexed; every recursive call consumes one unit of
fuel, and the theorems supply enough fuel that the fuel never runs out on
the executions they describe.  The error channel carries the circular
dependency exception; on an error the `finally`-clause state repairs are
not observable (no theorem below inspects state after an error). -/

inductive NKind where
  | SOURCE | COMPUTED | EFFECT
  deriving DecidableEq, Repr

inductive RState where
  | CLEAN | CHECK | DIRTY
  deriving DecidableEq, Repr

/-- Numeric values of `ReactiveState` (`CLEAN = 0 < CHECK = 1 < DIRTY = 2`),
used for the `state < DIRTY` / `state < CHECK` escalation guards. -/
def RState.toNat : RState → Nat
  | .CLEAN => 0
  | .CHECK => 1
  | .DIRTY => 2

/-- A `ReactiveNode` together with the closure state of its owning
`createGraphSignal` / `createComputed` / `createEffect` call:
`value`/`initialized` are the closure variables of `computed.ts` (for a
SOURCE node, `value` is the signal's value), `computing` is `_computing`,
and `deps`/`fnId` statically describe the user function. -/
structure GNode where
  kind : NKind
  state : RState
  version : Int
  sources : List Nat
  sourcesVersions : List Int
  observers : List Nat
  computing : Bool
  value : Int
  initialized : Bool
  deps : List Nat
  fnId : Nat
  deriving Repr, DecidableEq

instance : Inhabited GNode :=
  ⟨⟨.SOURCE, .CLEAN, 0, [], [], [], false, 0, false, [], 0⟩⟩

/-- Combine table interpreting `fnId` as a pure function of the values the
node's function read. -/
abbrev CFTab := Nat → List Int → Int

/-- Whole-system state: the node heap, the tracking context of
`reactive-node.ts` (`currentConsumer` + `trackingStack`), the observation
and run logs, and the `signal-reactive` scheduler state (`pendingEffects`,
`flushing`, plus the `BatchQueue` fields `depth` and `flushQueued`).
`gdiag` becomes true when the flush-iteration ceiling diagnostic fires. -/
structure Sys where
  nodes : List GNode
  consumer : Option Nat
  trackStack : List (Option Nat)
  obsLog : List Int
  runLog : List Nat
  pendingEffects : List Nat
  flushing : Bool
  depth : Nat
  flushQueued : Bool
  gdiag : Bool
  deriving Repr, DecidableEq

inductive GErr where
  | circular
  | fuelOut
  deriving Repr, DecidableEq

def getN (σ : Sys) (i : Nat) : GNode := σ.nodes.getD i default

def setN (σ : Sys) (i : Nat) (n : GNode) : Sys :=
  { σ with nodes := σ.nodes.set i n }

def modN (σ : Sys) (i : Nat) (f : GNode → GNode) : Sys :=
  setN σ i (f (getN σ i))

/-- `reportRead(source)`: register a read dependency on the current
consumer, deduplicated (the `_sourcesSet` mirror is list membership). -/
def reportRead (src : Nat) (σ : Sys) : Sys :=
  match σ.consumer with
  | none => σ
  | some c =>
      if src ∈ (getN σ c).sources then σ
      else
        let σ1 := modN σ c (fun n => { n with sources := n.sources ++ [src] })
        modN σ1 src (fun n => { n with observers := n.observers ++ [c] })

def startTracking (c : Nat) (σ : Sys) : Sys :=
  { σ with trackStack := σ.trackStack ++ [σ.consumer], consumer := some c }

/-- `endTracking`: `currentConsumer = trackingStack.pop() ?? null` (the
mismatch warning is a no-op on state). -/
def endTracking (σ : Sys) : Sys :=
  { σ with consumer := (σ.trackStack.getLast?).getD none,
           trackStack := σ.trackStack.dropLast }

/-- Swap-and-pop removal used by `cleanupSources` on observer back-arrays. -/
def removeSwapPop (l : List Nat) (x : Nat) : List Nat :=
  match l.indexOf? x with
  | none => l
  | some idx => (l.set idx ((l.getLast?).getD 0)).dropLast

/-- `cleanupSources(node)`: remove the node from all its sources' observer
lists and clear its own source bookkeeping. -/
def cleanupSources (i : Nat) (σ : Sys) : Sys :=
  let σ1 := ((getN σ i).sources).foldl
    (fun acc s => modN acc s
      (fun n => { n with observers := removeSwapPop n.observers i }))
    σ
  modN σ1 i (fun n => { n with sources := [], sourcesVersions := [] })

/-- `snapshotSourceVersions(node)`. -/
def snapshotSourceVersions (i : Nat) (σ : Sys) : Sys :=
  modN σ i (fun n =>
    { n with sourcesVersions := n.sources.map (fun s => (getN σ s).version) })

/-- The operations of the reactive engine.  Each constructor is one of
the mutually recursive procedures of `reactive-node.ts` / `computed.ts` /
`effect.ts` / `signal-reactive/index.ts`; they are interpreted by the
single fuel-indexed function `interp` below (defunctionalised so that the
recursion is structural on the fuel and hence computes definitionally). -/
inductive GOp where
  | getValueOp (i : Nat)
  | uinOp (i : Nat)
  | uinLoopOp (stack : List (Nat × Nat))
  | checkOp (nId idx : Nat) (rest : List (Nat × Nat))
  | dirtyOp (nId : Nat) (rest : List (Nat × Nat))
  | readDepsOp (ds : List Nat) (acc : List Int)
  | recomputeOp (i : Nat)
  | executeOp (i : Nat)
  | scheduleOp (i : Nat)
  | phase1Op (os : List Nat) (queue : List Nat)
  | bfsObsOp (os : List Nat) (pending : List Nat)
  | bfsOp (pending : List Nat)
  | propagateOp (src : Nat)
  | runEffectsOp (es : List Nat)
  | flushLoopOp (iterLeft : Nat)
  | flushOp
  | batchExitOp
  | sourceSetOp (i : Nat) (v : Int)
  deriving Repr, DecidableEq

/-- Interpreter result: the new system state plus the operation's output
values (`List Int` for reads, `List Nat` for the BFS queues); outputs not
produced by an operation are `[]`. -/
abbrev GRes := Sys × List Int × List Nat

/-- The reactive engine.  Every recursive call consumes one unit of fuel;
running out of fuel raises the distinguished `fuelOut` error (the theorems
below always supply enough fuel).  Each `GOp` case is the direct
translation of the corresponding source procedure:

* `getValueOp i` — `signal.get()` / `computed.get()`: report the read,
  pull if computed, return the current value.
* `uinOp i` — `updateIfNecessary(node)`.
* `uinLoopOp stack` — its `while (stack.length > 0)` loop (head = top).
* `checkOp` — the inner `while (frame.sourceIdx < n.sources.length)`
  verification of a CHECK node.
* `dirtyOp` — the DIRTY tail: recompute COMPUTED nodes, pop the frame.
* `readDepsOp` — the tracked reads the user function performs, in order.
* `recomputeOp i` — `recompute` of `computed.ts` with the circularity
  guard, teardown, tracked run, the equality-gated commit
  `if (!initialized || !equals(value, newValue))` (expanded into the
  nested conditionals below), the `finally` clause, snapshot, CLEAN.
* `executeOp i` — `execute` of `effect.ts`: re-entrance guard, pull-phase
  verification, teardown, tracked body run (the body reads its deps and
  appends the combined value to `obsLog`), snapshot, CLEAN.
* `scheduleOp i` — `scheduleEffect` of `signal-reactive` followed by
  `batchQueue.enqueue(flush)`.
* `phase1Op`/`bfsObsOp`/`bfsOp`/`propagateOp` — `propagateDirty`.
* `runEffectsOp`/`flushLoopOp`/`flushOp` — the bounded `flush` drain.
* `batchExitOp` — the `finally` clause of `batch()`.
* `sourceSetOp i v` — `set` on a graph-connected signal
  (`createGraphSignal` wires `onWrite` to `incrementVersion` +
  `propagateDirty`; such signals have no direct subscribers). -/
def interp (cftab : CFTab) (fuel : Nat) : GOp → Sys → Except GErr GRes :=
  Nat.rec (motive := fun _ => GOp → Sys → Except GErr GRes)
    (fun _ _ => .error .fuelOut)
    (fun _ interp op σ =>
      match op with
      | .getValueOp i =>
          match (getN σ i).kind with
          | .COMPUTED => do
              let σ1 := reportRead i σ
              let (σ2, _, _) ← interp (.uinOp i) σ1
              pure (σ2, [(getN σ2 i).value], [])
          | _ => pure (reportRead i σ, [(getN σ i).value], [])
      | .uinOp i =>
          if (getN σ i).state = .CLEAN then pure (σ, [], [])
          else interp (.uinLoopOp [(i, 0)]) σ
      | .uinLoopOp stack =>
          match stack with
          | [] => pure (σ, [], [])
          | (nId, idx) :: rest =>
              if (getN σ nId).state = .CLEAN then
                interp (.uinLoopOp rest) σ
              else if (getN σ nId).state = .CHECK then
                interp (.checkOp nId idx rest) σ
              else interp (.dirtyOp nId rest) σ
      | .checkOp nId idx rest =>
          let n := getN σ nId
          if h : idx < n.sources.length then
            let src := n.sources.get ⟨idx, h⟩
            if (getN σ src).state ≠ .CLEAN then
              interp (.uinLoopOp ((src, 0) :: (nId, idx) :: rest)) σ
            else if (getN σ src).version ≠ n.sourcesVersions.getD idx 0 then
              interp (.dirtyOp nId rest)
                (modN σ nId (fun m => { m with state := .DIRTY }))
            else interp (.checkOp nId (idx + 1) rest) σ
          else
            interp (.uinLoopOp rest)
              (modN σ nId (fun m => { m with state := .CLEAN }))
      | .dirtyOp nId rest =>
          if (getN σ nId).kind = .COMPUTED then do
            let (σ1, _, _) ← interp (.recomputeOp nId) σ
            interp (.uinLoopOp rest) σ1
          else interp (.uinLoopOp rest) σ
      | .readDepsOp ds acc =>
          match ds with
          | [] => pure (σ, acc, [])
          | d :: ds2 => do
              let (σ1, vs, _) ← interp (.getValueOp d) σ
              interp (.readDepsOp ds2 (acc ++ vs)) σ1
      | .recomputeOp i =>
          if (getN σ i).computing then .error .circular
          else
            let σ1 := cleanupSources i σ
            let σ2 := startTracking i
              (modN σ1 i (fun n => { n with computing := true }))
            let σ3 := { σ2 with runLog := σ2.runLog ++ [i] }
            match interp (.readDepsOp (getN σ3 i).deps []) σ3 with
            | .error e => .error e
            | .ok (σ4, vs, _) =>
                let newValue := cftab (getN σ4 i).fnId vs
                let σ5 :=
                  if (getN σ4 i).initialized = false then
                    modN σ4 i (fun n =>
                      { n with value := newValue,
                               version := incrementVersion n.version,
                               initialized := true })
                  else if (getN σ4 i).value = newValue then σ4
                  else
                    modN σ4 i (fun n =>
                      { n with value := newValue,
                               version := incrementVersion n.version,
                               initialized := true })
                let σ6 := endTracking
                  (modN σ5 i (fun n => { n with computing := false }))
                let σ7 := snapshotSourceVersions i σ6
                pure (modN σ7 i (fun n => { n with state := .CLEAN }), [], [])
      | .executeOp i =>
          if (getN σ i).computing then pure (σ, [], [])
          else do
            let (σ1, _, _) ← interp (.uinOp i) σ
            if (getN σ1 i).state = .CLEAN then pure (σ1, [], [])
            else
              let σ2 := cleanupSources i σ1
              let σ3 := startTracking i
                (modN σ2 i (fun n => { n with computing := true }))
              let σ4 := { σ3 with runLog := σ3.runLog ++ [i] }
              match interp (.readDepsOp (getN σ4 i).deps []) σ4 with
              | .error e => .error e
              | .ok (σ5, vs, _) =>
                  let σ6 := { σ5 with
                    obsLog := σ5.obsLog ++ [cftab (getN σ5 i).fnId vs] }
                  let σ7 := endTracking
                    (modN σ6 i (fun n => { n with computing := false }))
                  let σ8 := snapshotSourceVersions i σ7
                  pure (modN σ8 i (fun n => { n with state := .CLEAN }), [], [])
      | .scheduleOp i =>
          let σ1 := { σ with pendingEffects := pendingAdd σ.pendingEffects i }
          if σ1.depth > 0 then pure ({ σ1 with flushQueued := true }, [], [])
          else interp .flushOp σ1
      | .phase1Op os queue =>
          match os with
          | [] => pure (σ, [], queue)
          | o :: os2 =>
              if (getN σ o).state.toNat < RState.DIRTY.toNat then do
                let σ1 := modN σ o (fun n => { n with state := .DIRTY })
                let (σ2, _, _) ←
                  if (getN σ1 o).kind = .EFFECT then
                    interp (.scheduleOp o) σ1
                  else pure (σ1, [], [])
                interp (.phase1Op os2 (queue ++ [o])) σ2
              else interp (.phase1Op os2 queue) σ
      | .bfsObsOp os pending =>
          match os with
          | [] => pure (σ, [], pending)
          | o :: os2 =>
              if (getN σ o).state.toNat < RState.CHECK.toNat then do
                let σ1 := modN σ o (fun n => { n with state := .CHECK })
                let (σ2, _, _) ←
                  if (getN σ1 o).kind = .EFFECT then
                    interp (.scheduleOp o) σ1
                  else pure (σ1, [], [])
                interp (.bfsObsOp os2 (pending ++ [o])) σ2
              else interp (.bfsObsOp os2 pending) σ
      | .bfsOp pending =>
          match pending with
          | [] => pure (σ, [], [])
          | node :: pending2 => do
              let (σ1, _, pending3) ←
                interp (.bfsObsOp (getN σ node).observers pending2) σ
              interp (.bfsOp pending3) σ1
      | .propagateOp src => do
          let (σ1, _, queue) ←
            interp (.phase1Op (getN σ src).observers []) σ
          interp (.bfsOp queue) σ1
      | .runEffectsOp es =>
          match es with
          | [] => pure (σ, [], [])
          | e :: es2 => do
              let (σ1, _, _) ← interp (.executeOp e) σ
              interp (.runEffectsOp es2) σ1
      | .flushLoopOp iterLeft =>
          if σ.pendingEffects = [] then pure (σ, [], [])
          else
            match iterLeft with
            | 0 => pure ({ σ with pendingEffects := [], gdiag := true }, [], [])
            | il + 1 => do
                let es := σ.pendingEffects
                let (σ1, _, _) ← interp (.runEffectsOp es)
                  { σ with pendingEffects := [] }
                interp (.flushLoopOp il) σ1
      | .flushOp =>
          if σ.flushing then pure (σ, [], [])
          else do
            let (σ1, _, _) ← interp (.flushLoopOp 100)
              { σ with flushing := true }
            pure ({ σ1 with flushing := false }, [], [])
      | .batchExitOp =>
          if σ.depth - 1 = 0 then
            if σ.flushQueued then
              interp .flushOp
                { σ with depth := 0, flushQueued := false }
            else pure ({ σ with depth := 0 }, [], [])
          else pure ({ σ with depth := σ.depth - 1 }, [], [])
      | .sourceSetOp i v =>
          if (getN σ i).value = v then pure (σ, [], [])
          else
            let σ1 := modN σ i (fun n =>
              { n with value := v, version := incrementVersion n.version })
            interp (.propagateOp i) σ1)
    fuel

/-- `signal.get()` / `computed.get()`. -/
def getValue (cftab : CFTab) (fuel : Nat) (i : Nat) (σ : Sys) :
    Except GErr (Sys × Int) :=
  (interp cftab fuel (.getValueOp i) σ).map
    (fun r => (r.1, r.2.1.headD 0))

/-- `updateIfNecessary(node)`. -/
def updateIfNecessary (cftab : CFTab) (fuel : Nat) (i : Nat) (σ : Sys) :
    Except GErr Sys :=
  (interp cftab fuel (.uinOp i) σ).map (fun r => r.1)

/-- `recompute` of `computed.ts`. -/
def recompute (cftab : CFTab) (fuel : Nat) (i : Nat) (σ : Sys) :
    Except GErr Sys :=
  (interp cftab fuel (.recomputeOp i) σ).map (fun r => r.1)

/-- `execute` of `effect.ts`. -/
def executeEffect (cftab : CFTab) (fuel : Nat) (i : Nat) (σ : Sys) :
    Except GErr Sys :=
  (interp cftab fuel (.executeOp i) σ).map (fun r => r.1)

/-- `propagateDirty(source)`. -/
def propagateDirty (cftab : CFTab) (fuel : Nat) (src : Nat) (σ : Sys) :
    Except GErr Sys :=
  (interp cftab fuel (.propagateOp src) σ).map (fun r => r.1)

/-- `flush` of `signal-reactive`. -/
def flush (cftab : CFTab) (fuel : Nat) (σ : Sys) : Except GErr Sys :=
  (interp cftab fuel .flushOp σ).map (fun r => r.1)

/-- The `finally` clause of `batch()` on the engine state. -/
def batchExit (cftab : CFTab) (fuel : Nat) (σ : Sys) : Except GErr Sys :=
  (interp cftab fuel .batchExitOp σ).map (fun r => r.1)

/-- `set` on a graph-connected signal. -/
def sourceSet (cftab : CFTab) (fuel : Nat) (i : Nat) (v : Int) (σ : Sys) :
    Except GErr Sys :=
  (interp cftab fuel (.sourceSetOp i v) σ).map (fun r => r.1)

/-- `set` on a `signal-reactive` signal: the whole write is wrapped in
`batchQueue.batch`. -/
def batchedSet (cftab : CFTab) (fuel : Nat) (i : Nat) (v : Int) (σ : Sys) :
    Except GErr Sys := do
  let σ1 ← sourceSet cftab fuel i v { σ with depth := σ.depth + 1 }
  batchExit cftab fuel σ1

/-- A sequence of `signal-reactive` writes. -/
def runWrites (cftab : CFTab) (fuel : Nat) :
    List (Nat × Int) → Sys → Except GErr Sys
  | [], σ => pure σ
  | (i, v) :: ws, σ => do
      let σ1 ← batchedSet cftab fuel i v σ
      runWrites cftab fuel ws σ1

/-- An explicit `batch(fn)` whose body performs the given writes. -/
def batchWrites (cftab : CFTab) (fuel : Nat) (ws : List (Nat × Int))
    (σ : Sys) : Except GErr Sys := do
  let σ1 ← runWrites cftab fuel ws { σ with depth := σ.depth + 1 }
  batchExit cftab fuel σ1

/-- A fresh SOURCE node (`createGraphSignal`). -/
def mkSource (v : Int) : GNode :=
  ⟨.SOURCE, .CLEAN, 0, [], [], [], false, v, true, [], 0⟩

/-- A fresh COMPUTED node (`createComputed`): initially DIRTY, value not
yet initialized. -/
def mkComputed (deps : List Nat) (fnId : Nat) : GNode :=
  ⟨.COMPUTED, .DIRTY, 0, [], [], [], false, 0, false, deps, fnId⟩

/-- A fresh EFFECT node (`createEffect`): initially DIRTY to force the
first execution. -/
def mkEffect (deps : List Nat) (fnId : Nat) : GNode :=
  ⟨.EFFECT, .DIRTY, 0, [], [], [], false, 0, false, deps, fnId⟩

/-- Interpreter fuel; ample for every execution described below. -/
def FUEL : Nat := 60

/-- Combine table of the diamond scenario: `left = source + 1`,
`right = source * 2`, `combined = left + right`, and the observing
effect's body reads `combined`. -/
def diamondFT : CFTab := fun f vs =>
  match f, vs with
  | 0, [a] => a + 1
  | 1, [a] => a * 2
  | 2, [l, r] => l + r
  | 3, [c] => c
  | _, _ => 0

/-- Diamond heap before the effect's first run: node 0 the source, 1 =
left, 2 = right, 3 = combined, 4 = the observing effect. -/
def diamond0 (v0 : Int) : Sys :=
  ⟨[mkSource v0, mkComputed [0] 0, mkComputed [0] 1, mkComputed [1, 2] 2,
    mkEffect [3] 3],
   none, [], [], [], [], false, 0, false, false⟩

/-- Combine table of the batch-dedup scenario: one effect reading two
sources and observing their sum. -/
def twoSrcFT : CFTab := fun f vs =>
  match f, vs with
  | 0, [a, b] => a + b
  | _, _ => 0

/-- Two sources (nodes 0, 1) and one effect (node 2) depending on both. -/
def twoSrc0 : Sys :=
  ⟨[mkSource 0, mkSource 0, mkEffect [0, 1] 0],
   none, [], [], [], [], false, 0, false, false⟩

/-- The batch-dedup run: mount the effect, then perform three writes to
the two sources inside one explicit batch. -/
def twoSrcRun : Except GErr Sys := do
  let σ ← executeEffect twoSrcFT FUEL 2 twoSrc0
  batchWrites twoSrcFT FUEL [(0, 1), (1, 2), (0, 3)] σ

/-- Combine table of the custom-equality scenario: a computed whose
function reads its source but always returns `7`. -/
def constFT : CFTab := fun f vs =>
  match f, vs with
  | 0, [_] => 7
  | _, _ => 0

/-- A source (node 0) and a constant-valued computed (node 1) reading it. -/
def const0 : Sys :=
  ⟨[mkSource 0, mkComputed [0] 0], none, [], [], [], [], false, 0, false,
   false⟩

/-- The constant-computed run: pull once, write 5 to the source, pull
again. -/
def constRun : Except GErr Sys := do
  let (σ1, _) ← getValue constFT FUEL 1 const0
  let σ2 ← batchedSet constFT FUEL 0 5 σ1
  let (σ3, _) ← getValue constFT FUEL 1 σ2
  pure σ3

/-- Combine table of the cycle scenario (each computed returns the value
it read). -/
def cycFT : CFTab := fun _ vs => vs.headD 0

/-- Two computeds reading each other: node 0 reads node 1, node 1 reads
node 0. -/
def cyc0 : Sys :=
  ⟨[mkComputed [1] 0, mkComputed [0] 0], none, [], [], [], [], false, 0,
   false, false⟩

end Forge

namespace Forge

/-! ## Part II: theorems -/

/-! ### BatchQueue: helper lemmas -/

theorem pendingAdd_nodup {p : List CbId} (h : p.Nodup) (c : CbId) :
    (pendingAdd p c).Nodup := by
  unfold pendingAdd
  split
  · exact h
  · next hc =>
      rw [List.nodup_append]
      refine ⟨h, List.nodup_singleton c, ?_⟩
      intro a ha hb
      simp only [List.mem_singleton] at hb
      subst hb
      exact hc ha

theorem mem_pendingAdd {p : List CbId} {c d : CbId} :
    d ∈ pendingAdd p c ↔ d ∈ p ∨ d = c := by
  unfold pendingAdd
  split
  · next hc =>
      constructor
      · exact Or.inl
      · rintro (h | rfl) <;> [exact h; exact hc]
  · simp

theorem foldl_pendingAdd_nodup (l : List CbId) {p : List CbId} (h : p.Nodup) :
    (l.foldl pendingAdd p).Nodup := by
  induction l generalizing p with
  | nil => exact h
  | cons c rest ih => exact ih (pendingAdd_nodup h c)

theorem mem_foldl_pendingAdd (l : List CbId) (p : List CbId) (d : CbId) :
    d ∈ l.foldl pendingAdd p ↔ d ∈ p ∨ d ∈ l := by
  induction l generalizing p with
  | nil => simp
  | cons c rest ih =>
      simp only [List.foldl_cons, ih, mem_pendingAdd, List.mem_cons]
      tauto

mutual
/-- While the queue is nested (`depth ≥ 1`), one client action executes
nothing, preserves the depth, and accumulates exactly the deduplicated
enqueued callbacks into `pending`: an inner batch boundary never flushes. -/
theorem runAct_nested (a : BAct) (r : BQRun) (h : 1 ≤ r.depth) :
    runAct a r =
      { r with pending := (enqIds a).foldl pendingAdd r.pending } := by
  cases a with
  | enq c =>
      rw [runAct]
      rw [if_pos (by omega)]
      simp [enqIds, pendingAdd]
  | batchA inner =>
      rw [runAct]
      rw [runActs_nested inner _ (by simp)]
      rw [exitBatch, if_neg (by simp; omega)]
      simp [enqIds]

/-- `runAct_nested` lifted to action sequences. -/
theorem runActs_nested (acts : List BAct) (r : BQRun) (h : 1 ≤ r.depth) :
    runActs acts r =
      { r with pending := (enqIdsL acts).foldl pendingAdd r.pending } := by
  cases acts with
  | nil => simp [runActs, enqIdsL]
  | cons a rest =>
      rw [runActs, runAct_nested a r h]
      rw [runActs_nested rest _ (by simpa using h)]
      simp [enqIdsL, List.foldl_append]
end

/-- Running the body of a top-level batch from the just-entered state:
nothing executes and `pending` collects the deduplicated enqueues. -/
theorem runActs_top (acts : List BAct) :
    runActs acts ⟨1, [], []⟩ =
      ⟨1, (enqIdsL acts).foldl pendingAdd [], []⟩ := by
  rw [runActs_nested acts _ (by simp)]

/-- A top-level batch on inert callbacks: the whole execution log is
produced by the final drain, in first-enqueue order without duplicates. -/
theorem runAct_batch_init (acts : List BAct) :
    runAct (.batchA acts) BQRun.init =
      ⟨0, [], (enqIdsL acts).foldl pendingAdd []⟩ := by
  rw [runAct, BQRun.init]
  rw [runActs_nested acts _ (by simp)]
  rw [exitBatch]
  simp

/-! ### Flush error-policy lemmas -/

theorem flushPrimary_executed (beh : CbId → Option ErrId) (fns : List CbId) :
    (flushPrimary beh fns).executed = fns := by
  induction fns with
  | nil => rfl
  | cons f rest ih =>
      rw [flushPrimary]
      cases beh f <;> simpa using ih

theorem flushPrimary_thrown (beh : CbId → Option ErrId) (fns : List CbId) :
    (flushPrimary beh fns).thrown = none := by
  induction fns with
  | nil => rfl
  | cons f rest ih =>
      rw [flushPrimary]
      cases beh f <;> rfl

theorem flushPrimary_logged (beh : CbId → Option ErrId) (fns : List CbId) :
    (flushPrimary beh fns).logged = fns.filterMap beh := by
  induction fns with
  | nil => rfl
  | cons f rest ih =>
      rw [flushPrimary, List.filterMap_cons]
      cases beh f <;> simpa using ih

theorem flushVariantGo_executed (beh : CbId → Option ErrId)
    (acc : Option ErrId) (fns : List CbId) :
    (flushVariantGo beh acc fns).executed = fns := by
  induction fns generalizing acc with
  | nil => rfl
  | cons f rest ih =>
      rw [flushVariantGo]
      cases hb : beh f
      · simpa using ih acc
      · cases acc <;> simpa using ih _

theorem flushVariantGo_some_thrown (beh : CbId → Option ErrId) (a : ErrId)
    (fns : List CbId) :
    (flushVariantGo beh (some a) fns).thrown = some a := by
  induction fns with
  | nil => rfl
  | cons f rest ih =>
      rw [flushVariantGo]
      cases hb : beh f <;> simpa using ih

theorem flushVariantGo_some_logged (beh : CbId → Option ErrId) (a : ErrId)
    (fns : List CbId) :
    (flushVariantGo beh (some a) fns).logged = fns.filterMap beh := by
  induction fns with
  | nil => rfl
  | cons f rest ih =>
      rw [flushVariantGo, List.filterMap_cons]
      cases hb : beh f <;> simp [hb] <;> simpa using ih

theorem flushVariant_thrown (beh : CbId → Option ErrId) (fns : List CbId) :
    (flushVariant beh fns).thrown = (fns.filterMap beh).head? := by
  rw [flushVariant]
  induction fns with
  | nil => rfl
  | cons f rest ih =>
      rw [flushVariantGo, List.filterMap_cons]
      cases hb : beh f
      · simpa using ih
      · next e => simp [flushVariantGo_some_thrown]

theorem flushVariant_logged (beh : CbId → Option ErrId) (fns : List CbId) :
    (flushVariant beh fns).logged = (fns.filterMap beh).tail := by
  rw [flushVariant]
  induction fns with
  | nil => rfl
  | cons f rest ih =>
      rw [flushVariantGo, List.filterMap_cons]
      cases hb : beh f
      · simpa using ih
      · next e => simp [flushVariantGo_some_logged]

/-! ### Observable-Value notification lemmas -/

/-- One subscriber invocation appends exactly one call-log entry, whatever
the subscriber does (return, throw, or write back). -/
theorem runSub_callLog (ftab : FTab) (beh : SubBeh) (i : Nat) (s : SigState) :
    (runSub ftab beh i s).callLog = s.callLog ++ [(i, s.value)] := by
  rw [runSub]
  cases beh i s.value with
  | ret => rfl
  | throwE e => rfl
  | setV x =>
      simp only [innerSet]
      split <;> rfl

/-- A subscriber invocation can only append to the error log. -/
theorem runSub_errLog (ftab : FTab) (beh : SubBeh) (i : Nat) (s : SigState) :
    (runSub ftab beh i s).errLog =
      s.errLog ++ (errOf (beh i s.value)).toList := by
  rw [runSub]
  cases beh i s.value with
  | ret => simp [errOf]
  | throwE e => simp [errOf]
  | setV x =>
      simp only [innerSet, errOf]
      split <;> simp

/-- Within one notification pass, every subscriber of the snapshot is
invoked exactly once, in order, no matter what earlier subscribers did
(including throwing): the call log grows by exactly the subscriber list. -/
theorem runSubs_callLog_fst (ftab : FTab) (beh : SubBeh) (subs : List Nat)
    (s : SigState) :
    (runSubs ftab beh subs s).callLog.map Prod.fst =
      s.callLog.map Prod.fst ++ subs := by
  induction subs generalizing s with
  | nil => simp [runSubs]
  | cons i rest ih =>
      rw [runSubs, ih, runSub_callLog]
      simp

/-- A non-writing subscriber invocation: the value, flags and diagnostics
are untouched; only the two logs grow. -/
theorem runSub_nonwrite (ftab : FTab) (beh : SubBeh) (i : Nat) (s : SigState)
    (h : isWriteEff (beh i s.value) = false) :
    runSub ftab beh i s =
      { s with callLog := s.callLog ++ [(i, s.value)],
               errLog := s.errLog ++ (errOf (beh i s.value)).toList } := by
  rw [runSub]
  cases hb : beh i s.value with
  | ret => simp [errOf]
  | throwE e => simp [errOf]
  | setV x => rw [hb] at h; simp [isWriteEff] at h

/-- A pass over non-writing subscribers: value and flags unchanged, calls
and errors recorded in subscriber order. -/
theorem runSubs_nonwrite (ftab : FTab) (beh : SubBeh) (subs : List Nat)
    (s : SigState) (h : ∀ i v, isWriteEff (beh i v) = false) :
    runSubs ftab beh subs s =
      { s with callLog := s.callLog ++ subs.map (fun i => (i, s.value)),
               errLog := s.errLog ++
                 subs.filterMap (fun i => errOf (beh i s.value)) } := by
  induction subs generalizing s with
  | nil => simp [runSubs]
  | cons i rest ih =>
      rw [runSubs, runSub_nonwrite ftab beh i s (h i s.value), ih]
      simp only [List.map_cons, List.filterMap_cons]
      cases hb : beh i s.value with
      | ret => simp [errOf]
      | throwE e => simp [errOf]
      | setV x => have := h i s.value; rw [hb] at this; simp [isWriteEff] at this

/-- `set` never propagates an exception to its caller: every subscriber
error is caught inside `notify` and reported via `console.error`. -/
theorem setS_thrown (ftab : FTab) (beh : SubBeh) (subs : List Nat)
    (s : SigState) (next : JVal) :
    (setS ftab beh subs s next).2 = none := by
  rw [setS]
  split
  · rfl
  · dsimp only
    split <;> rfl

/-- With non-writing subscribers a notification performs exactly one pass:
nobody sets the dirty flag, so the `do/while` loop exits immediately and
the `finally` clause restores the flags. -/
theorem notify_nonwrite (ftab : FTab) (beh : SubBeh) (subs : List Nat)
    (s : SigState) (h : ∀ i v, isWriteEff (beh i v) = false) :
    notify ftab beh subs s =
      { s with notifying := false, dirty := false,
               callLog := s.callLog ++ subs.map (fun i => (i, s.value)),
               errLog := s.errLog ++
                 subs.filterMap (fun i => errOf (beh i s.value)) } := by
  have hMAX : MAX_ITERATIONS = 99 + 1 := rfl
  rw [notify, hMAX, notifyLoop]
  rw [runSubs_nonwrite ftab beh subs _ h]
  simp

/-- Every subscriber pass grows the call log by exactly the subscriber
count. -/
theorem runSubs_callLog_length (ftab : FTab) (beh : SubBeh) (subs : List Nat)
    (s : SigState) :
    (runSubs ftab beh subs s).callLog.length =
      s.callLog.length + subs.length := by
  have h := runSubs_callLog_fst ftab beh subs s
  have h2 := congrArg List.length h
  simpa using h2

/-- Whatever the subscribers do, the notification loop makes at most
`fuel` passes, hence at most `fuel * subs.length` subscriber invocations:
the iteration ceiling turns any non-convergent feedback loop into a
bounded computation. -/
theorem notifyLoop_callLog_le (ftab : FTab) (beh : SubBeh) (subs : List Nat)
    (fuel : Nat) (s : SigState) :
    (notifyLoop ftab beh subs fuel s).callLog.length ≤
      s.callLog.length + fuel * subs.length := by
  induction fuel generalizing s with
  | zero => simp [notifyLoop]
  | succ f ih =>
      rw [notifyLoop]
      split
      · refine le_trans (ih _) ?_
        rw [runSubs_callLog_length]
        simp only [Nat.succ_mul]
        omega
      · rw [runSubs_callLog_length]
        simp only [Nat.succ_mul]
        omega

/-- One pass of the all-subscribers-write-`value+1` feedback loop: the
value increases by the number of subscribers and the dirty flag is set. -/
theorem runSubs_incBeh (ftab : FTab) (subs : List Nat) (s : SigState)
    (v : Int) (hv : s.value = .num v) :
    (runSubs ftab incBeh subs s).value = .num (v + subs.length) ∧
    (runSubs ftab incBeh subs s).dirty = (s.dirty || !subs.isEmpty) ∧
    (runSubs ftab incBeh subs s).diag = s.diag := by
  induction subs generalizing s v with
  | nil => simp [runSubs, hv]
  | cons i rest ih =>
      rw [runSubs]
      have hstep : runSub ftab incBeh i s =
          { s with value := .num (v + 1), dirty := true,
                   callLog := s.callLog ++ [(i, JVal.num v)] } := by
        rw [runSub, hv]
        simp only [incBeh]
        rw [innerSet]
        simp only [setCandidate, jadd1]
        rw [if_neg (by intro hc; simp only [JVal.num.injEq] at hc; omega)]
      rw [hstep]
      obtain ⟨h1, h2, h3⟩ :=
        ih { s with value := JVal.num (v + 1), dirty := true,
                    callLog := s.callLog ++ [(i, JVal.num v)] } (v + 1) rfl
      refine ⟨?_, ?_, by simpa using h3⟩
      · rw [h1]
        simp only [List.length_cons]
        congr 1
        push_cast
        ring
      · rw [h2]
        simp

/-- The feedback loop never converges: each allowed pass advances the
value by the subscriber count and re-dirties the signal, so the loop only
stops when the iteration ceiling is hit, emitting the diagnostic and
leaving the value of the last completed pass. -/
theorem notifyLoop_incBeh (ftab : FTab) (subs : List Nat) (hk : subs ≠ [])
    (fuel : Nat) (s : SigState) (v : Int) (hv : s.value = .num v) :
    (notifyLoop ftab incBeh subs fuel s).value =
      .num (v + fuel * subs.length) ∧
    (notifyLoop ftab incBeh subs fuel s).diag = true := by
  induction fuel generalizing s v with
  | zero => simp [notifyLoop, hv]
  | succ f ih =>
      rw [notifyLoop]
      obtain ⟨h1, h2, h3⟩ :=
        runSubs_incBeh ftab subs { s with dirty := false } v hv
      rw [h2]
      have hne : subs.isEmpty = false := by
        cases subs with
        | nil => exact absurd rfl hk
        | cons a l => rfl
      rw [hne]
      simp only [Bool.false_or, Bool.not_false, if_true]
      obtain ⟨g1, g2⟩ := ih _ _ h1
      refine ⟨?_, g2⟩
      rw [g1]
      congr 1
      push_cast
      ring

/-- Characterisation of a non-notifying, value-changing `set` over
non-writing subscribers. -/
theorem setS_nonwrite (ftab : FTab) (beh : SubBeh) (subs : List Nat)
    (s : SigState) (next : JVal) (hn : s.notifying = false)
    (hw : ∀ i v, isWriteEff (beh i v) = false)
    (hne : s.value ≠ setCandidate ftab next s.value) :
    (setS ftab beh subs s next).1 =
      { s with value := setCandidate ftab next s.value,
               notifying := false, dirty := false,
               callLog := s.callLog ++
                 subs.map (fun i => (i, setCandidate ftab next s.value)),
               errLog := s.errLog ++
                 subs.filterMap
                   (fun i => errOf (beh i (setCandidate ftab next s.value))) }
    := by
  rw [setS, if_neg hne]
  dsimp only
  rw [hn]
  simp only [Bool.false_eq_true, if_false]
  rw [notify_nonwrite ftab beh subs _ hw]

/-! ### Interpreter step equations

One equation per engine operation (and per argument constructor where the
operation matches on an argument), each holding definitionally.  They let
proofs drive the engine one step at a time without ever exposing the whole
dispatcher. -/

theorem exc_bind_ok {ε α β : Type} (a : α) (f : α → Except ε β) :
    (Except.ok a : Except ε α) >>= f = f a := rfl

theorem exc_bind_err {ε α β : Type} (e : ε) (f : α → Except ε β) :
    (Except.error e : Except ε α) >>= f = .error e := rfl

theorem exc_pure {ε α : Type} (a : α) :
    (pure a : Except ε α) = .ok a := rfl

theorem exc_map_ok {ε α β : Type} (g : α → β) (a : α) :
    Except.map g (Except.ok a : Except ε α) = .ok (g a) := rfl

theorem exc_map_err {ε α β : Type} (g : α → β) (e : ε) :
    Except.map g (Except.error e : Except ε α) = .error e := rfl

theorem interp_getValueOp (c : CFTab) (f i : Nat) (σ : Sys) :
    interp c (f + 1) (.getValueOp i) σ =
      (match (getN σ i).kind with
       | .COMPUTED => do
           let σ1 := reportRead i σ
           let (σ2, _, _) ← interp c f (.uinOp i) σ1
           pure (σ2, [(getN σ2 i).value], [])
       | _ => pure (reportRead i σ, [(getN σ i).value], [])) := rfl

theorem interp_uinOp (c : CFTab) (f i : Nat) (σ : Sys) :
    interp c (f + 1) (.uinOp i) σ =
      if (getN σ i).state = .CLEAN then pure (σ, [], [])
      else interp c f (.uinLoopOp [(i, 0)]) σ := rfl

theorem interp_uinLoopNil (c : CFTab) (f : Nat) (σ : Sys) :
    interp c (f + 1) (.uinLoopOp []) σ = pure (σ, [], []) := rfl

theorem interp_uinLoopCons (c : CFTab) (f nId idx : Nat)
    (rest : List (Nat × Nat)) (σ : Sys) :
    interp c (f + 1) (.uinLoopOp ((nId, idx) :: rest)) σ =
      if (getN σ nId).state = .CLEAN then interp c f (.uinLoopOp rest) σ
      else if (getN σ nId).state = .CHECK then
        interp c f (.checkOp nId idx rest) σ
      else interp c f (.dirtyOp nId rest) σ := rfl

theorem interp_checkOp (c : CFTab) (f nId idx : Nat)
    (rest : List (Nat × Nat)) (σ : Sys) :
    interp c (f + 1) (.checkOp nId idx rest) σ =
      (let n := getN σ nId
       if h : idx < n.sources.length then
         let src := n.sources.get ⟨idx, h⟩
         if (getN σ src).state ≠ .CLEAN then
           interp c f (.uinLoopOp ((src, 0) :: (nId, idx) :: rest)) σ
         else if (getN σ src).version ≠ n.sourcesVersions.getD idx 0 then
           interp c f (.dirtyOp nId rest)
             (modN σ nId (fun m => { m with state := .DIRTY }))
         else interp c f (.checkOp nId (idx + 1) rest) σ
       else
         interp c f (.uinLoopOp rest)
           (modN σ nId (fun m => { m with state := .CLEAN }))) := rfl

theorem interp_dirtyOp (c : CFTab) (f nId : Nat) (rest : List (Nat × Nat))
    (σ : Sys) :
    interp c (f + 1) (.dirtyOp nId rest) σ =
      if (getN σ nId).kind = .COMPUTED then do
        let (σ1, _, _) ← interp c f (.recomputeOp nId) σ
        interp c f (.uinLoopOp rest) σ1
      else interp c f (.uinLoopOp rest) σ := rfl

theorem interp_readDepsNil (c : CFTab) (f : Nat) (acc : List Int) (σ : Sys) :
    interp c (f + 1) (.readDepsOp [] acc) σ = pure (σ, acc, []) := rfl

theorem interp_readDepsCons (c : CFTab) (f d : Nat) (ds : List Nat)
    (acc : List Int) (σ : Sys) :
    interp c (f + 1) (.readDepsOp (d :: ds) acc) σ =
      (do
        let (σ1, vs, _) ← interp c f (.getValueOp d) σ
        interp c f (.readDepsOp ds (acc ++ vs)) σ1) := rfl

theorem interp_recomputeOp (c : CFTab) (f i : Nat) (σ : Sys) :
    interp c (f + 1) (.recomputeOp i) σ =
      (if (getN σ i).computing then .error .circular
       else
         let σ1 := cleanupSources i σ
         let σ2 := startTracking i
           (modN σ1 i (fun n => { n with computing := true }))
         let σ3 := { σ2 with runLog := σ2.runLog ++ [i] }
         match interp c f (.readDepsOp (getN σ3 i).deps []) σ3 with
         | .error e => .error e
         | .ok (σ4, vs, _) =>
             let newValue := c (getN σ4 i).fnId vs
             let σ5 :=
               if (getN σ4 i).initialized = false then
                 modN σ4 i (fun n =>
                   { n with value := newValue,
                            version := incrementVersion n.version,
                            initialized := true })
               else if (getN σ4 i).value = newValue then σ4
               else
                 modN σ4 i (fun n =>
                   { n with value := newValue,
                            version := incrementVersion n.version,
                            initialized := true })
             let σ6 := endTracking
               (modN σ5 i (fun n => { n with computing := false }))
             let σ7 := snapshotSourceVersions i σ6
             pure (modN σ7 i (fun n => { n with state := .CLEAN }), [], []))
      := rfl

theorem interp_executeOp (c : CFTab) (f i : Nat) (σ : Sys) :
    interp c (f + 1) (.executeOp i) σ =
      (if (getN σ i).computing then pure (σ, [], [])
       else do
         let (σ1, _, _) ← interp c f (.uinOp i) σ
         if (getN σ1 i).state = .CLEAN then pure (σ1, [], [])
         else
           let σ2 := cleanupSources i σ1
           let σ3 := startTracking i
             (modN σ2 i (fun n => { n with computing := true }))
           let σ4 := { σ3 with runLog := σ3.runLog ++ [i] }
           match interp c f (.readDepsOp (getN σ4 i).deps []) σ4 with
           | .error e => .error e
           | .ok (σ5, vs, _) =>
               let σ6 := { σ5 with
                 obsLog := σ5.obsLog ++ [c (getN σ5 i).fnId vs] }
               let σ7 := endTracking
                 (modN σ6 i (fun n => { n with computing := false }))
               let σ8 := snapshotSourceVersions i σ7
               pure (modN σ8 i (fun n => { n with state := .CLEAN }), [], []))
      := rfl

theorem interp_scheduleOp (c : CFTab) (f i : Nat) (σ : Sys) :
    interp c (f + 1) (.scheduleOp i) σ =
      (let σ1 := { σ with pendingEffects := pendingAdd σ.pendingEffects i }
       if σ1.depth > 0 then pure ({ σ1 with flushQueued := true }, [], [])
       else interp c f .flushOp σ1) := rfl

theorem interp_phase1Nil (c : CFTab) (f : Nat) (queue : List Nat) (σ : Sys) :
    interp c (f + 1) (.phase1Op [] queue) σ = pure (σ, [], queue) := rfl

theorem interp_phase1Cons (c : CFTab) (f o : Nat) (os queue : List Nat)
    (σ : Sys) :
    interp c (f + 1) (.phase1Op (o :: os) queue) σ =
      (if (getN σ o).state.toNat < RState.DIRTY.toNat then do
        let σ1 := modN σ o (fun n => { n with state := .DIRTY })
        let (σ2, _, _) ←
          if (getN σ1 o).kind = .EFFECT then interp c f (.scheduleOp o) σ1
          else pure (σ1, [], [])
        interp c f (.phase1Op os (queue ++ [o])) σ2
      else interp c f (.phase1Op os queue) σ) := rfl

theorem interp_bfsObsNil (c : CFTab) (f : Nat) (pending : List Nat)
    (σ : Sys) :
    interp c (f + 1) (.bfsObsOp [] pending) σ = pure (σ, [], pending) := rfl

theorem interp_bfsObsCons (c : CFTab) (f o : Nat) (os pending : List Nat)
    (σ : Sys) :
    interp c (f + 1) (.bfsObsOp (o :: os) pending) σ =
      (if (getN σ o).state.toNat < RState.CHECK.toNat then do
        let σ1 := modN σ o (fun n => { n with state := .CHECK })
        let (σ2, _, _) ←
          if (getN σ1 o).kind = .EFFECT then interp c f (.scheduleOp o) σ1
          else pure (σ1, [], [])
        interp c f (.bfsObsOp os (pending ++ [o])) σ2
      else interp c f (.bfsObsOp os pending) σ) := rfl

theorem interp_bfsNil (c : CFTab) (f : Nat) (σ : Sys) :
    interp c (f + 1) (.bfsOp []) σ = pure (σ, [], []) := rfl

theorem interp_bfsCons (c : CFTab) (f node : Nat) (pending : List Nat)
    (σ : Sys) :
    interp c (f + 1) (.bfsOp (node :: pending)) σ =
      (do
        let (σ1, _, pending1) ←
          interp c f (.bfsObsOp (getN σ node).observers pending) σ
        interp c f (.bfsOp pending1) σ1) := rfl

theorem interp_propagateOp (c : CFTab) (f src : Nat) (σ : Sys) :
    interp c (f + 1) (.propagateOp src) σ =
      (do
        let (σ1, _, queue) ←
          interp c f (.phase1Op (getN σ src).observers []) σ
        interp c f (.bfsOp queue) σ1) := rfl

theorem interp_runEffectsNil (c : CFTab) (f : Nat) (σ : Sys) :
    interp c (f + 1) (.runEffectsOp []) σ = pure (σ, [], []) := rfl

theorem interp_runEffectsCons (c : CFTab) (f e : Nat) (es : List Nat)
    (σ : Sys) :
    interp c (f + 1) (.runEffectsOp (e :: es)) σ =
      (do
        let (σ1, _, _) ← interp c f (.executeOp e) σ
        interp c f (.runEffectsOp es) σ1) := rfl

theorem interp_flushLoopOp (c : CFTab) (f iterLeft : Nat) (σ : Sys) :
    interp c (f + 1) (.flushLoopOp iterLeft) σ =
      (if σ.pendingEffects = [] then pure (σ, [], [])
       else
         match iterLeft with
         | 0 => pure ({ σ with pendingEffects := [], gdiag := true }, [], [])
         | il + 1 => do
             let es := σ.pendingEffects
             let (σ1, _, _) ← interp c f (.runEffectsOp es)
               { σ with pendingEffects := [] }
             interp c f (.flushLoopOp il) σ1) := rfl

theorem interp_flushOp (c : CFTab) (f : Nat) (σ : Sys) :
    interp c (f + 1) .flushOp σ =
      (if σ.flushing then pure (σ, [], [])
       else do
         let (σ1, _, _) ← interp c f (.flushLoopOp 100)
           { σ with flushing := true }
         pure ({ σ1 with flushing := false }, [], [])) := rfl

theorem interp_batchExitOp (c : CFTab) (f : Nat) (σ : Sys) :
    interp c (f + 1) .batchExitOp σ =
      (if σ.depth - 1 = 0 then
        if σ.flushQueued then
          interp c f .flushOp { σ with depth := 0, flushQueued := false }
        else pure ({ σ with depth := 0 }, [], [])
      else pure ({ σ with depth := σ.depth - 1 }, [], [])) := rfl

theorem interp_sourceSetOp (c : CFTab) (f i : Nat) (v : Int) (σ : Sys) :
    interp c (f + 1) (.sourceSetOp i v) σ =
      (if (getN σ i).value = v then pure (σ, [], [])
       else
         let σ1 := modN σ i (fun n =>
           { n with value := v, version := incrementVersion n.version })
         interp c f (.propagateOp i) σ1) := rfl

/-! Guarded step equations for the two operations whose unconditional
equations would be self-unfolding; the guards make them applicable only
when the concrete control-flow condition is known. -/

theorem interp_checkOp_push (c : CFTab) (f nId idx : Nat)
    (rest : List (Nat × Nat)) (σ : Sys)
    (h : idx < (getN σ nId).sources.length)
    (h2 : ((getN σ ((getN σ nId).sources.getD idx 0)).state = RState.CLEAN)
            = False) :
    interp c (f + 1) (.checkOp nId idx rest) σ =
      interp c f
        (.uinLoopOp (((getN σ nId).sources.getD idx 0, 0) :: (nId, idx)
          :: rest)) σ := by
  rw [interp_checkOp]
  have hget : (getN σ nId).sources.get ⟨idx, h⟩
      = (getN σ nId).sources.getD idx 0 := by
    rw [List.get_eq_getElem, List.getD_eq_getElem _ 0 h]
  rw [dif_pos h, hget, if_pos (fun hc => h2 ▸ hc)]

theorem interp_checkOp_dirty (c : CFTab) (f nId idx : Nat)
    (rest : List (Nat × Nat)) (σ : Sys)
    (h : idx < (getN σ nId).sources.length)
    (h2 : (getN σ ((getN σ nId).sources.getD idx 0)).state = RState.CLEAN)
    (h3 : ((getN σ ((getN σ nId).sources.getD idx 0)).version
            = (getN σ nId).sourcesVersions.getD idx 0) = False) :
    interp c (f + 1) (.checkOp nId idx rest) σ =
      interp c f (.dirtyOp nId rest)
        (modN σ nId (fun m => { m with state := .DIRTY })) := by
  rw [interp_checkOp]
  have hget : (getN σ nId).sources.get ⟨idx, h⟩
      = (getN σ nId).sources.getD idx 0 := by
    rw [List.get_eq_getElem, List.getD_eq_getElem _ 0 h]
  rw [dif_pos h, hget, if_neg (fun hne => hne h2),
    if_pos (fun hc => h3 ▸ hc)]

theorem interp_checkOp_next (c : CFTab) (f nId idx : Nat)
    (rest : List (Nat × Nat)) (σ : Sys)
    (h : idx < (getN σ nId).sources.length)
    (h2 : (getN σ ((getN σ nId).sources.getD idx 0)).state = RState.CLEAN)
    (h3 : (getN σ ((getN σ nId).sources.getD idx 0)).version
            = (getN σ nId).sourcesVersions.getD idx 0) :
    interp c (f + 1) (.checkOp nId idx rest) σ =
      interp c f (.checkOp nId (idx + 1) rest) σ := by
  rw [interp_checkOp]
  have hget : (getN σ nId).sources.get ⟨idx, h⟩
      = (getN σ nId).sources.getD idx 0 := by
    rw [List.get_eq_getElem, List.getD_eq_getElem _ 0 h]
  rw [dif_pos h, hget, if_neg (fun hne => hne h2),
    if_neg (fun hne => hne h3)]

theorem interp_checkOp_done (c : CFTab) (f nId idx : Nat)
    (rest : List (Nat × Nat)) (σ : Sys)
    (h : (idx < (getN σ nId).sources.length) = False) :
    interp c (f + 1) (.checkOp nId idx rest) σ =
      interp c f (.uinLoopOp rest)
        (modN σ nId (fun m => { m with state := .CLEAN })) := by
  rw [interp_checkOp, dif_neg (fun hc => h ▸ hc)]

theorem interp_flushLoop_done (c : CFTab) (f iterLeft : Nat) (σ : Sys)
    (h : σ.pendingEffects = []) :
    interp c (f + 1) (.flushLoopOp iterLeft) σ = pure (σ, [], []) := by
  rw [interp_flushLoopOp, if_pos h]

theorem interp_flushLoop_run (c : CFTab) (f il : Nat) (σ : Sys)
    (h : (σ.pendingEffects = []) = False) :
    interp c (f + 1) (.flushLoopOp (il + 1)) σ =
      (do
        let (σ1, _, _) ← interp c f (.runEffectsOp σ.pendingEffects)
          { σ with pendingEffects := [] }
        interp c f (.flushLoopOp il) σ1) := by
  rw [interp_flushLoopOp, if_neg (fun hc => h ▸ hc)]

theorem interp_flushLoop_diag (c : CFTab) (f : Nat) (σ : Sys)
    (h : (σ.pendingEffects = []) = False) :
    interp c (f + 1) (.flushLoopOp 0) σ =
      pure ({ σ with pendingEffects := [], gdiag := true }, [], []) := by
  rw [interp_flushLoopOp, if_neg (fun hc => h ▸ hc)]

/-! ## Claim theorems -/

/-- C3 (counterexample): with three subscribers of which the second
throws error 5, `set(1)` from value 0 notifies all three subscribers and
logs the error, but — contrary to the claim — does NOT re-throw the first
error to the caller of `set()`: the propagated exception is `none`. -/
theorem signalNotify_firstError_not_rethrown :
    (setS ftab0 behThrow1 [0, 1, 2] (SigState.start (.num 0)) (.num 1)).2
        = none ∧
    (setS ftab0 behThrow1 [0, 1, 2] (SigState.start (.num 0)) (.num 1)).2
        ≠ some 5 ∧
    (setS ftab0 behThrow1 [0, 1, 2]
        (SigState.start (.num 0)) (.num 1)).1.errLog = [5] ∧
    (setS ftab0 behThrow1 [0, 1, 2]
        (SigState.start (.num 0)) (.num 1)).1.callLog.map Prod.fst
      = [0, 1, 2] := by
  refine ⟨by decide, by decide, by decide, by decide⟩

/-- C3 (amended): an exception thrown by one subscriber does not prevent
the remaining subscribers of that notification pass from being called;
each subscriber error is caught individually and reported via
`console.error` in subscriber order; and no error is ever propagated
(re-thrown) to the caller of `set()`. -/
theorem signalNotify_error_isolation (ftab : FTab) (beh : SubBeh)
    (subs : List Nat) (s : SigState) (next : JVal) :
    ((runSubs ftab beh subs s).callLog.map Prod.fst
        = s.callLog.map Prod.fst ++ subs) ∧
    ((setS ftab beh subs s next).2 = none) ∧
    (s.notifying = false → (∀ i v, isWriteEff (beh i v) = false) →
      s.value ≠ setCandidate ftab next s.value →
      (setS ftab beh subs s next).1.errLog = s.errLog ++
        subs.filterMap
          (fun i => errOf (beh i (setCandidate ftab next s.value)))) := by
  refine ⟨runSubs_callLog_fst ftab beh subs s, setS_thrown ftab beh subs s next,
    fun hn hw hne => ?_⟩
  rw [setS_nonwrite ftab beh subs s next hn hw hne]

/-- C3 (witness for the amended theorem). -/
theorem signalNotify_error_isolation_witness :
    ((runSubs ftab0 behThrow1 [0, 1, 2]
        (SigState.start (.num 0))).callLog.map Prod.fst
      = (SigState.start (.num 0)).callLog.map Prod.fst ++ [0, 1, 2]) ∧
    ((setS ftab0 behThrow1 [0, 1, 2]
        (SigState.start (.num 0)) (.num 1)).2 = none) ∧
    ((SigState.start (.num 0)).notifying = false →
      (∀ i v, isWriteEff (behThrow1 i v) = false) →
      (SigState.start (.num 0)).value
          ≠ setCandidate ftab0 (.num 1) (SigState.start (.num 0)).value →
      (setS ftab0 behThrow1 [0, 1, 2]
          (SigState.start (.num 0)) (.num 1)).1.errLog
        = (SigState.start (.num 0)).errLog ++
          List.filterMap
            (fun i => errOf (behThrow1 i
              (setCandidate ftab0 (.num 1) (SigState.start (.num 0)).value)))
            [0, 1, 2]) :=
  signalNotify_error_isolation ftab0 behThrow1 [0, 1, 2]
    (SigState.start (.num 0)) (.num 1)

/-- C6 (counterexample): on the exported `BatchQueue` of `batch-queue.ts`,
a batch that enqueues two throwing callbacks drains both and logs both
errors, but — contrary to the claim — the first error is NOT re-thrown to
the caller of `batch()`. -/
theorem batchFlush_firstError_not_rethrown :
    batchPrimary behTwoErr [.enq 0, .enq 1]
        = ⟨[0, 1], [7, 9], none⟩ ∧
    (batchPrimary behTwoErr [.enq 0, .enq 1]).thrown ≠ some 7 := by
  refine ⟨by decide, by decide⟩

/-- C6 (amended): when the outermost batch drains its pending callbacks,
every pending callback is invoked even if an earlier one threw.  In the
exported `BatchQueue` (`batch-queue.ts`) every error is caught and
reported via `console.error` and `batch()` returns normally; in the
`firstError` variant `BatchQueue` (appended in `signal.ts`) the first
error is re-thrown to the caller of `batch()` after the full drain and
the subsequent errors are reported but not re-thrown. -/
theorem batchFlush_error_policy (beh : CbId → Option ErrId)
    (acts : List BAct) :
    ((batchPrimary beh acts).executed = (runActs acts ⟨1, [], []⟩).pending ∧
     (batchPrimary beh acts).logged
        = ((runActs acts ⟨1, [], []⟩).pending).filterMap beh ∧
     (batchPrimary beh acts).thrown = none) ∧
    ((batchVariant beh acts).executed = (runActs acts ⟨1, [], []⟩).pending ∧
     (batchVariant beh acts).thrown
        = (((runActs acts ⟨1, [], []⟩).pending).filterMap beh).head? ∧
     (batchVariant beh acts).logged
        = (((runActs acts ⟨1, [], []⟩).pending).filterMap beh).tail) := by
  refine ⟨⟨?_, ?_, ?_⟩, ⟨?_, ?_, ?_⟩⟩
  · exact flushPrimary_executed beh _
  · exact flushPrimary_logged beh _
  · exact flushPrimary_thrown beh _
  · exact flushVariantGo_executed beh none _
  · exact flushVariant_thrown beh _
  · exact flushVariant_logged beh _

/-- C8: with any non-empty set of subscribers that each write `value + 1`
back to the signal, a value-changing `set` makes exactly the
`MAX_ITERATIONS` allowed notification passes and then stops: the ceiling
diagnostic is emitted, the value is left at what the last completed pass
produced, and no exception escapes to the caller.  Moreover, for every
subscriber behaviour whatsoever the notification loop performs at most
`fuel * subs.length` subscriber invocations — it cannot hang. -/
theorem signalNotify_bounded_reentrancy (subs : List Nat) (hk : subs ≠ [])
    (a x : Int) (hx : JVal.num a ≠ JVal.num x) :
    (setS ftab0 incBeh subs (SigState.start (.num a)) (.num x)).1.value
        = .num (x + MAX_ITERATIONS * subs.length) ∧
    (setS ftab0 incBeh subs (SigState.start (.num a)) (.num x)).1.diag
        = true ∧
    (setS ftab0 incBeh subs (SigState.start (.num a)) (.num x)).2 = none ∧
    (∀ (ftab : FTab) (beh : SubBeh) (s : SigState) (fuel : Nat),
      (notifyLoop ftab beh subs fuel s).callLog.length ≤
        s.callLog.length + fuel * subs.length) := by
  have hset : setS ftab0 incBeh subs (SigState.start (.num a)) (.num x)
      = (notify ftab0 incBeh subs
          { SigState.start (.num a) with value := .num x }, none) := by
    rw [setS]
    rw [if_neg (by simpa [setCandidate, SigState.start] using hx)]
    rfl
  have hloop := notifyLoop_incBeh ftab0 subs hk MAX_ITERATIONS
    { (SigState.start (.num a)) with value := JVal.num x, notifying := true }
    x rfl
  refine ⟨?_, ?_, ?_, fun ftab beh s fuel => notifyLoop_callLog_le ftab beh subs fuel s⟩
  · rw [hset]
    exact hloop.1
  · rw [hset]
    exact hloop.2
  · rw [hset]

/-- C8 (witness). -/
theorem signalNotify_bounded_reentrancy_witness :
    (setS ftab0 incBeh [0] (SigState.start (.num 0)) (.num 1)).1.value
        = .num (1 + MAX_ITERATIONS * [0].length) ∧
    (setS ftab0 incBeh [0] (SigState.start (.num 0)) (.num 1)).1.diag
        = true ∧
    (setS ftab0 incBeh [0] (SigState.start (.num 0)) (.num 1)).2 = none ∧
    (∀ (ftab : FTab) (beh : SubBeh) (s : SigState) (fuel : Nat),
      (notifyLoop ftab beh [0] fuel s).callLog.length ≤
        s.callLog.length + fuel * [0].length) :=
  signalNotify_bounded_reentrancy [0] (by decide) 0 1 (by decide)

/-- C10: a function-typed argument to `set` is never stored as the new
value directly: it is always interpreted as an updater, the stored
candidate being its application to the previous value; consequently a
function value can be stored by wrapping it in a constant updater. -/
theorem setFunction_is_updater (ftab : FTab) (beh : SubBeh) (subs : List Nat)
    (s : SigState) (f : Nat) :
    (setCandidate ftab (.func f) s.value = ftab f s.value) ∧
    (s.notifying = false → (∀ i v, isWriteEff (beh i v) = false) →
      s.value ≠ ftab f s.value →
      (setS ftab beh subs s (.func f)).1.value = ftab f s.value) ∧
    (∀ (g : JVal) (w : Nat), (∀ v, ftab w v = g) →
      setCandidate ftab (.func w) s.value = g) := by
  refine ⟨rfl, fun hn hw hne => ?_, fun g w hwrap => hwrap s.value⟩
  rw [setS_nonwrite ftab beh subs s (.func f) hn hw hne]
  rfl

/-- C10 (witness): entry 1 of `ftabW` is the constant updater returning
function value 7, entry 0 the `+1` updater. -/
theorem setFunction_is_updater_witness :
    (setCandidate ftabW (.func 0) (SigState.start (.num 0)).value
        = ftabW 0 (SigState.start (.num 0)).value) ∧
    ((SigState.start (.num 0)).notifying = false →
      (∀ i v, isWriteEff (behThrow1 i v) = false) →
      (SigState.start (.num 0)).value
          ≠ ftabW 0 (SigState.start (.num 0)).value →
      (setS ftabW behThrow1 [0] (SigState.start (.num 0)) (.func 0)).1.value
        = ftabW 0 (SigState.start (.num 0)).value) ∧
    (∀ (g : JVal) (w : Nat), (∀ v, ftabW w v = g) →
      setCandidate ftabW (.func w) (SigState.start (.num 0)).value = g) :=
  setFunction_is_updater ftabW behThrow1 [0] (SigState.start (.num 0)) 0

/-! wrap32 / incrementVersion helper lemmas (used by the versioning
claim). -/

theorem incrementVersion_of_lt (v : Int) (hlo : -(2 ^ 31) ≤ v)
    (hhi : v < 2 ^ 31 - 1) : incrementVersion v = v + 1 := by
  unfold incrementVersion wrap32
  omega

theorem incrementVersion_wraps :
    incrementVersion 2147483647 = -2147483648 := by
  unfold incrementVersion wrap32
  decide
